import Mathlib

/-!
Shallow embedding of the protocol core of fftool.py (command/reply engine,
binary block reader, upload sequencer) together with theorems checking the
natural-language specification against it.

Modelling conventions:
  - Bytes are `Nat` (values < 256 on the wire); byte strings are `List Nat`.
  - Text lines delivered by `readline` are Lean `String`s, including their
    trailing newline, exactly as decoded from ASCII.
  - Python exceptions are an explicit error type `PErr`; the distinct Python
    exception classes (Exception on a bad acknowledgement, AssertionError,
    struct.error, UnicodeDecodeError, ZeroDivisionError) get one constructor
    each, matching the error taxonomy of the design document.
  - Socket traffic produced by the client is a trace of events `Ev`
    (command writes, data-chunk writes, flushes, sleeps).
-/

/-- Python str.strip and str.rstrip whitespace set, restricted to the ASCII
range (the protocol only ever carries ASCII). -/
def isPySpace (c : Char) : Bool :=
  c == ' ' || c == '\t' || c == '\n' || c == '\r' || c == '\x0b' || c == '\x0c'

/-- Python str.strip: remove leading and trailing whitespace. -/
def stripPy (s : String) : String :=
  String.mk (((s.data.dropWhile isPySpace).reverse.dropWhile isPySpace).reverse)

/-- Python str.rstrip: remove trailing whitespace only.  Used to state the
trimming behaviour the specification describes. -/
def rstripPy (s : String) : String :=
  String.mk ((s.data.reverse.dropWhile isPySpace).reverse)

/-- The character class [0-9A-Z] of the acknowledgement pattern. -/
def isTokChar (c : Char) : Bool :=
  (48 ≤ c.toNat && c.toNat ≤ 57) || (65 ≤ c.toNat && c.toNat ≤ 90)

/-- The part of the acknowledgement regex after the token: a literal
space-Received, then the pattern character dot, which in the source regex is
an unescaped wildcard matching any single character except newline.  Nothing
is required after it because re.match only anchors at the start. -/
def afterRecv : List Char → Bool
  | a1 :: a2 :: a3 :: a4 :: a5 :: a6 :: a7 :: a8 :: a9 :: c :: _ =>
      a1 == ' ' && a2 == 'R' && a3 == 'e' && a4 == 'c' && a5 == 'e' &&
      a6 == 'i' && a7 == 'v' && a8 == 'e' && a9 == 'd' && !(c == '\n')
  | _ => false

/-- The compiled pattern cmdackre (fftool.py line 50) applied with re.match
to a character list: literal CMD-space, a nonempty [0-9A-Z]+ token (greedy,
and since the space that must follow is outside the class, greediness is
exact), then `afterRecv`.  Trailing characters are unconstrained. -/
def cmdackreL (d : List Char) : Bool :=
  match d with
  | c1 :: c2 :: c3 :: c4 :: rest =>
      c1 == 'C' && c2 == 'M' && c3 == 'D' && c4 == ' ' &&
      !(rest.takeWhile isTokChar == []) &&
      afterRecv (rest.dropWhile isTokChar)
  | _ => false

/-- cmdackre.match on a decoded reply line (fftool.py lines 50 and 142). -/
def cmdackre (s : String) : Bool := cmdackreL s.data

/-- Declarative shape of the lines accepted by `cmdackre`: CMD-space, a
nonempty [0-9A-Z] token, space-Received, then one arbitrary non-newline
character followed by anything at all. -/
def AckShapeL (d : List Char) : Prop :=
  ∃ tok c rest, tok ≠ [] ∧ (∀ ch ∈ tok, isTokChar ch = true) ∧ c ≠ '\n' ∧
    d = 'C' :: 'M' :: 'D' :: ' ' ::
        (tok ++ (' ' :: 'R' :: 'e' :: 'c' :: 'e' :: 'i' :: 'v' :: 'e' :: 'd' :: c :: rest))

/-- Declarative acceptance shape on strings. -/
def AckShape (s : String) : Prop := AckShapeL s.data

/-- Acknowledgement matcher modelled from the specification text, for
comparison with the implemented one: the whole line must be exactly
CMD-space, a nonempty [0-9A-Z] token, and the literal text space-Received
followed by a literal dot, with nothing after it. -/
def specAckExact (s : String) : Bool :=
  match s.data with
  | c1 :: c2 :: c3 :: c4 :: rest =>
      c1 == 'C' && c2 == 'M' && c3 == 'D' && c4 == ' ' &&
      !(rest.takeWhile isTokChar == []) &&
      (rest.dropWhile isTokChar ==
        [' ', 'R', 'e', 'c', 'e', 'i', 'v', 'e', 'd', '.'])
  | _ => false

/-- Error taxonomy of the core, following section 7 of the design document.
`protocol` carries the command sent and the offending line, as the raised
Exception message does; `validation` is the filename-length AssertionError;
`structShort` is struct.error on a short 8-byte header read; `decodeErr` is
UnicodeDecodeError; `zeroDivision` is ZeroDivisionError; `streamHang` marks
the state in which the Python code would loop forever re-reading an empty
line from a closed stream (readline returns empty forever, and an empty
string never equals ok). -/
inductive PErr where
  | protocol (cmd line : String)
  | streamHang
  | magicMismatch (expected actual : List Nat)
  | structShort
  | decodeErr
  | validation
  | zeroDivision
deriving DecidableEq

/-- The reply-collection loop of sendcmd (fftool.py lines 144-149): read a
line, strip it, stop on ok, otherwise append and continue.  The input list
holds the successive decoded readline results; exhausting it corresponds to
the stream closing, upon which the real code would spin forever, modelled as
`streamHang`. -/
def collectReply : List String → Except PErr (List String)
  | [] => Except.error PErr.streamHang
  | l :: ls =>
      let t := stripPy l
      if t = "ok" then Except.ok []
      else
        match collectReply ls with
        | Except.ok r => Except.ok (t :: r)
        | Except.error e => Except.error e

/-- sendcmd (fftool.py lines 137-150), reply side: the first element of
`lines` is the acknowledgement readline result, the rest feed the collection
loop.  An empty `lines` models readline returning an empty string at EOF,
which fails the acknowledgement match exactly like any other bad line. -/
def sendcmd (cmd : String) (lines : List String) : Except PErr (List String) :=
  match lines with
  | [] => Except.error (PErr.protocol cmd "")
  | a :: rest =>
      if cmdackre a then collectReply rest
      else Except.error (PErr.protocol cmd a)

example : stripPy (" x\r\n") = "x" := by decide
example : rstripPy (" x\r\n") = " x" := by decide
example : cmdackre ("CMD M119 Received.\r\n") = true := by decide
example : cmdackre ("CMD M119 ReceivedX trailing junk\n") = true := by decide
example : cmdackre ("CMD M119 Received\n") = false := by decide
example : cmdackre ("ok\n") = false := by decide
example : specAckExact ("CMD M119 ReceivedX trailing junk\n") = false := by decide
example : specAckExact ("CMD M119 Received.") = true := by decide
example :
    sendcmd ("~M119\r\n") ["CMD M119 Received.\n", " x\n", "ok\n"] =
      Except.ok ["x"] := by rfl

/-- Big-endian 32-bit encoding of a length field, as struct.pack would
produce for format >I. -/
def be32enc (n : Nat) : List Nat :=
  [n / 2 ^ 24 % 256, n / 2 ^ 16 % 256, n / 2 ^ 8 % 256, n % 256]

/-- Big-endian 32-bit decoding of 4 bytes, as struct.unpack with format
>4sI performs on the bytes following the magic tag. -/
def be32dec (bs : List Nat) : Nat :=
  match bs with
  | [b0, b1, b2, b3] => ((b0 * 256 + b1) * 256 + b2) * 256 + b3
  | _ => 0

/-- Magic tag of the file-list header block (fftool.py line 170). -/
def listMagic : List Nat := [68, 170, 170, 68]

/-- Magic tag of each file-list entry block (fftool.py line 174). -/
def entryMagic : List Nat := [58, 58, 163, 163]

/-- Magic tag of the preview-image block (fftool.py line 184). -/
def imageMagic : List Nat := [42, 42, 162, 162]

/-- Header step shared by the block readers (fftool.py lines 168-170,
172-174, 182-184): read 8 bytes, unpack as 4-byte magic plus big-endian
32-bit length, and check the magic against the expected tag.  Fewer than 8
bytes available means the stream closed, and struct.unpack fails; a wrong
magic fails the assertion carrying both tags.  On success it returns the
length field and the unconsumed remainder of the stream. -/
def parseHdr (expected : List Nat) (s : List Nat) : Except PErr (Nat × List Nat) :=
  match s with
  | b0 :: b1 :: b2 :: b3 :: b4 :: b5 :: b6 :: b7 :: rest =>
      if [b0, b1, b2, b3] = expected then
        Except.ok (be32dec [b4, b5, b6, b7], rest)
      else Except.error (PErr.magicMismatch expected [b0, b1, b2, b3])
  | _ => Except.error PErr.structShort

/-- Block reader: header step, then a payload read of the declared length.
A blocking-mode read of n bytes returns at most n bytes, fewer only when the
stream closes; no length check follows the read in the source.  Returns the
payload and the unconsumed remainder. -/
def readBlock (expected : List Nat) (s : List Nat) :
    Except PErr (List Nat × List Nat) :=
  match parseHdr expected s with
  | Except.error e => Except.error e
  | Except.ok (blen, rest) => Except.ok (rest.take blen, rest.drop blen)

/-- Entry loop of listfiles (fftool.py lines 171-176): read one entry block
per declared file, decoding each payload as ASCII (a byte 128 or above
raises UnicodeDecodeError).  Filenames are kept as byte lists. -/
def readEntries : Nat → List Nat → Except PErr (List (List Nat))
  | 0, _ => Except.ok []
  | n + 1, s =>
      match readBlock entryMagic s with
      | Except.error e => Except.error e
      | Except.ok (fname, rest) =>
          if fname.all (fun b => b < 128) then
            match readEntries n rest with
            | Except.ok names => Except.ok (fname :: names)
            | Except.error e => Except.error e
          else Except.error PErr.decodeErr

/-- Binary part of listfiles (fftool.py lines 168-176), applied to the byte
stream that follows the ~M661 text exchange: one header block whose length
field is the file count, then that many entry blocks. -/
def listfiles (s : List Nat) : Except PErr (List (List Nat)) :=
  match parseHdr listMagic s with
  | Except.error e => Except.error e
  | Except.ok (nfiles, rest) => readEntries nfiles rest

/-- Binary part of getimage (fftool.py lines 182-185): a single image block;
the payload bytes are returned untouched. -/
def getimage (s : List Nat) : Except PErr (List Nat) :=
  match readBlock imageMagic s with
  | Except.error e => Except.error e
  | Except.ok (data, _) => Except.ok data

/-- Serialized entry block for a filename, for stating round-trip results. -/
def encEntry (nm : List Nat) : List Nat := entryMagic ++ be32enc nm.length ++ nm

/-- Serialized sequence of entry blocks. -/
def encodeEntries (names : List (List Nat)) : List Nat :=
  (names.map encEntry).flatten

/-- Serialized complete file-list reply: header block declaring the count,
then one entry block per filename. -/
def encodeFileList (names : List (List Nat)) : List Nat :=
  listMagic ++ be32enc names.length ++ encodeEntries names

example : be32dec (be32enc 1025) = 1025 := by decide
example :
    listfiles (encodeFileList [[104, 105], [97]]) =
      Except.ok [[104, 105], [97]] := by rfl
example :
    listfiles (listMagic ++ be32enc 2 ++ encEntry [104]) =
      Except.error PErr.structShort := by rfl
example :
    listfiles (listMagic ++ be32enc 1 ++ entryMagic ++ be32enc 5 ++ [97, 98, 99]) =
      Except.ok [[97, 98, 99]] := by rfl
example :
    readBlock imageMagic ([1, 2, 3, 4, 0, 0, 0, 2, 9, 9]) =
      Except.error (PErr.magicMismatch imageMagic [1, 2, 3, 4]) := by rfl

/-- Observable socket events emitted by the client: a textual command write,
a raw data-chunk write, a flush, and a sleep measured in milliseconds. -/
inductive Ev where
  | cmd (c : String)
  | data (bs : List Nat)
  | flush
  | sleep (ms : Nat)
deriving DecidableEq

/-- Python os.path.basename: the part of the path after the last slash. -/
def basenamePy (s : String) : String :=
  String.mk ((s.data.reverse.takeWhile (fun c => !(c == '/'))).reverse)

/-- The upload-open command ~M28 with the declared total length and target
path (fftool.py line 198). -/
def m28cmd (flen : Nat) (fname : String) : String :=
  "~M28 " ++ toString flen ++ " 0:/user/" ++ fname ++ "\r\n"

/-- Packet-boundary and close sequence after the data stream (fftool.py
lines 217-221): flush, 100 ms sleep, flush, then the write and flush of the
upload-close command ~M29 performed by sendcmd. -/
def m29close : List Ev :=
  [Ev.flush, Ev.sleep 100, Ev.flush, Ev.cmd ("~M29\r\n"), Ev.flush]

/-- Successive results of file.read with the 1024-byte BLOCKSIZE, driven by
fuel so that the definition is structurally recursive; `chunks1024` always
supplies enough fuel.  Every chunk is full except possibly the last. -/
def chunksGo : Nat → List Nat → List (List Nat)
  | _, [] => []
  | 0, _ :: _ => []
  | fuel + 1, b :: bs => (b :: bs).take 1024 :: chunksGo fuel ((b :: bs).drop 1024)

/-- The chunk sequence of a byte source. -/
def chunks1024 (B : List Nat) : List (List Nat) := chunksGo B.length B

/-- Result of the upload streaming loop: the emitted events, the final value
of the cumulative counter `sent`, and whether the loop completed. -/
structure LoopOut where
  evs : List Ev
  finalSent : Nat
  res : Except PErr Unit

/-- The upload streaming loop (fftool.py lines 202-213).  Each iteration
first prints progress when bcount is a multiple of 10 — evaluating
sent / flen, which raises ZeroDivisionError when flen is 0 — then reads a
chunk, stopping on an empty read, otherwise writing it, flushing, and adding
the full BLOCKSIZE of 1024 to `sent` even when the chunk read was shorter.
flen is the total length measured beforehand by seeking (line 195); the
loop itself uses it only in the progress expression and performs no
validation of the source against it. -/
def uploadLoop (flen : Nat) : List (List Nat) → Nat → Nat → LoopOut
  | cs, bcount, sent =>
      if bcount % 10 = 0 ∧ flen = 0 then ⟨[], sent, Except.error PErr.zeroDivision⟩
      else
        match cs with
        | [] => ⟨[], sent, Except.ok ()⟩
        | c :: rest =>
            let r := uploadLoop flen rest (bcount + 1) (sent + 1024)
            ⟨Ev.data c :: Ev.flush :: r.evs, r.finalSent, r.res⟩

/-- Raw data bytes contained in an event trace, in order: the concatenation
of all data-chunk writes, ignoring command writes, flushes and sleeps. -/
def dataBytes : List Ev → List Nat
  | [] => []
  | Ev.data bs :: rest => bs ++ dataBytes rest
  | _ :: rest => dataBytes rest

/-- The send command (fftool.py lines 190-224) up to the optional print
step, as a socket-event trace plus outcome.  The two text exchanges are fed
their reply lines as inputs.  Order of operations, as in the source: the
basename-length assertion (before any write), the ~M28 open exchange, the
streaming loop, the forced packet boundary of flush, 100 ms sleep, flush,
and the ~M29 close exchange. -/
def send (localName : String) (B : List Nat)
    (openReply closeReply : List String) : List Ev × Except PErr Unit :=
  let fname := basenamePy localName
  if fname.length ≤ 36 then
    let openCmd := m28cmd B.length fname
    match sendcmd openCmd openReply with
    | Except.error e => ([Ev.cmd openCmd, Ev.flush], Except.error e)
    | Except.ok _ =>
        let lo := uploadLoop B.length (chunks1024 B) 0 0
        match lo.res with
        | Except.error e => (Ev.cmd openCmd :: Ev.flush :: lo.evs, Except.error e)
        | Except.ok _ =>
            match sendcmd ("~M29\r\n") closeReply with
            | Except.error e =>
                (Ev.cmd openCmd :: Ev.flush :: (lo.evs ++ m29close), Except.error e)
            | Except.ok _ =>
                (Ev.cmd openCmd :: Ev.flush :: (lo.evs ++ m29close), Except.ok ())
  else ([], Except.error PErr.validation)

example : chunks1024 [7] = [[7]] := by rfl
example : (uploadLoop 1 (chunks1024 [7]) 0 0).finalSent = 1024 := by rfl
example : (uploadLoop 1 (chunks1024 [7]) 0 0).res = Except.ok () := by rfl
example : (uploadLoop 0 [] 0 0).res = Except.error PErr.zeroDivision := by rfl
example : dataBytes (uploadLoop 2 (chunks1024 [7]) 0 0).evs = [7] := by rfl
example :
    send ("a.gcode") [5] ["CMD M28 Received.\n", "ok\n"] ["CMD M29 Received.\n", "ok\n"] =
      ([Ev.cmd (m28cmd 1 ("a.gcode")), Ev.flush, Ev.data [5], Ev.flush] ++ m29close,
        Except.ok ()) := by rfl
example :
    send ("dir/0123456789012345678901234567890123456") [5] [] [] =
      ([], Except.error PErr.validation) := by rfl

lemma takeWhile_all_append {α : Type} (p : α → Bool) :
    ∀ t r : List α, (∀ c ∈ t, p c = true) →
      (t ++ r).takeWhile p = t ++ r.takeWhile p ∧
        (t ++ r).dropWhile p = r.dropWhile p := by
  intro t
  induction t with
  | nil => intro r _; simp
  | cons a t ih =>
      intro r h
      have ha : p a = true := h a (List.mem_cons_self a t)
      have ht := ih r (fun c hc => h c (List.mem_cons_of_mem a hc))
      simp [List.takeWhile_cons_of_pos ha, List.dropWhile_cons_of_pos ha,
        ht.1, ht.2]

lemma collectReply_ne_protocol :
    ∀ (ls : List String) (c l : String),
      collectReply ls ≠ Except.error (PErr.protocol c l) := by
  intro ls
  induction ls with
  | nil => intro c l h; simp [collectReply] at h
  | cons a ls ih =>
      intro c l h
      by_cases ha : stripPy a = "ok"
      · simp [collectReply, ha] at h
      · simp [collectReply, ha] at h
        rcases hrec : collectReply ls with e | r
        · rw [hrec] at h
          exact ih c l (by rw [hrec, ← h])
        · rw [hrec] at h
          cases h

lemma collectReply_of_term :
    ∀ ls : List String, (∃ l, l ∈ ls ∧ stripPy l = "ok") →
      collectReply ls =
        Except.ok ((ls.takeWhile (fun l => !(stripPy l == "ok"))).map stripPy) := by
  intro ls
  induction ls with
  | nil => intro h; rcases h with ⟨l, hl, _⟩; cases hl
  | cons a ls ih =>
      intro h
      by_cases ha : stripPy a = "ok"
      · rw [List.takeWhile_cons]
        simp [collectReply, ha]
      · obtain ⟨l, hl, hok⟩ := h
        rcases List.mem_cons.mp hl with rfl | hl2
        · exact absurd hok ha
        · rw [List.takeWhile_cons]
          simp [collectReply, ha, ih ⟨l, hl2, hok⟩]




lemma cmdackreL_iff : ∀ d : List Char, cmdackreL d = true ↔ AckShapeL d := by
  intro d
  constructor
  · intro h
    rcases d with _ | ⟨c1, _ | ⟨c2, _ | ⟨c3, _ | ⟨c4, rest⟩⟩⟩⟩
    · simp [cmdackreL] at h
    · simp [cmdackreL] at h
    · simp [cmdackreL] at h
    · simp [cmdackreL] at h
    · rw [cmdackreL] at h
      simp only [Bool.and_eq_true] at h
      obtain ⟨⟨⟨⟨⟨h1, h2⟩, h3⟩, h4⟩, h5⟩, h6⟩ := h
      obtain rfl := eq_of_beq h1
      obtain rfl := eq_of_beq h2
      obtain rfl := eq_of_beq h3
      obtain rfl := eq_of_beq h4
      have htok : rest.takeWhile isTokChar ≠ [] := by
        intro hnil; rw [hnil] at h5; simp at h5
      rcases hdw : rest.dropWhile isTokChar with
          _ | ⟨a1, _ | ⟨a2, _ | ⟨a3, _ | ⟨a4, _ | ⟨a5, _ | ⟨a6, _ | ⟨a7,
            _ | ⟨a8, _ | ⟨a9, _ | ⟨c, r⟩⟩⟩⟩⟩⟩⟩⟩⟩⟩ <;> rw [hdw] at h6
      · simp [afterRecv] at h6
      · simp [afterRecv] at h6
      · simp [afterRecv] at h6
      · simp [afterRecv] at h6
      · simp [afterRecv] at h6
      · simp [afterRecv] at h6
      · simp [afterRecv] at h6
      · simp [afterRecv] at h6
      · simp [afterRecv] at h6
      · simp [afterRecv] at h6
      · rw [afterRecv] at h6
        simp only [Bool.and_eq_true] at h6
        obtain ⟨⟨⟨⟨⟨⟨⟨⟨⟨g1, g2⟩, g3⟩, g4⟩, g5⟩, g6⟩, g7⟩, g8⟩, g9⟩, g10⟩ := h6
        obtain rfl := eq_of_beq g1
        obtain rfl := eq_of_beq g2
        obtain rfl := eq_of_beq g3
        obtain rfl := eq_of_beq g4
        obtain rfl := eq_of_beq g5
        obtain rfl := eq_of_beq g6
        obtain rfl := eq_of_beq g7
        obtain rfl := eq_of_beq g8
        obtain rfl := eq_of_beq g9
        have hc : c ≠ '\n' := by
          intro hcc; rw [hcc] at g10; simp at g10
        refine ⟨rest.takeWhile isTokChar, c, r, htok, ?_, hc, ?_⟩
        · intro ch hch; exact List.mem_takeWhile_imp hch
        · have hsplit := List.takeWhile_append_dropWhile isTokChar rest
          rw [hdw] at hsplit
          conv_lhs => rw [← hsplit]
  · rintro ⟨tok, c, r, hne, hall, hc, rfl⟩
    have hsp : isTokChar ' ' = false := by decide
    have h2 := takeWhile_all_append isTokChar tok
      (' ' :: 'R' :: 'e' :: 'c' :: 'e' :: 'i' :: 'v' :: 'e' :: 'd' :: c :: r) hall
    rw [cmdackreL]
    rw [h2.1, h2.2]
    rw [List.takeWhile_cons_of_neg (by simp [hsp])]
    rw [List.dropWhile_cons_of_neg (by simp [hsp])]
    rw [afterRecv]
    simp [hne, hc]

lemma cmdackre_iff (s : String) : cmdackre s = true ↔ AckShape s :=
  cmdackreL_iff s.data

/-- Claim C1 (corrected).  When the acknowledgement matches and a terminator
line is present, sendcmd returns exactly the content lines before the first
terminator, in receipt order, excluding the acknowledgement and the
terminator.  Each returned line is the received line with whitespace
stripped from BOTH ends, Python str.strip, not only the trailing end as the
claim states, and the terminator is any line whose stripped form is ok, not
only the line exactly equal to ok. -/
theorem c1_theorem (cmd a : String) (ls : List String)
    (hack : cmdackre a = true) (hterm : ∃ l, l ∈ ls ∧ stripPy l = "ok") :
    sendcmd cmd (a :: ls) =
      Except.ok ((ls.takeWhile (fun l => !(stripPy l == "ok"))).map stripPy) := by
  rw [sendcmd, if_pos hack]
  exact collectReply_of_term ls hterm

/-- Claim C1, witness: a concrete exchange with one content line. -/
theorem c1_witness :
    sendcmd ("~M119\r\n") ["CMD M119 Received.\n", "X: 1\n", "ok\n"] =
      Except.ok ((["X: 1\n", "ok\n"].takeWhile
        (fun l => !(stripPy l == "ok"))).map stripPy) :=
  c1_theorem ("~M119\r\n") ("CMD M119 Received.\n") ["X: 1\n", "ok\n"]
    (by decide) ⟨"ok\n", by decide, by decide⟩

/-- Claim C1, counterexample to the claim as stated: a content line with
leading whitespace comes back with that whitespace removed, so the result is
not the received line trimmed of trailing whitespace only. -/
theorem c1_counterexample :
    sendcmd ("~M119\r\n") ["CMD M119 Received.\n", " x\n", "ok\n"] =
      Except.ok ["x"] ∧
    rstripPy (" x\n") = " x" ∧ ("x" : String) ≠ " x" :=
  ⟨by rfl, by decide, by decide⟩

/-- Claim C2 (corrected).  sendcmd fails with the protocol error carrying
the command and the offending first line exactly when that line does not
have the shape accepted by the compiled pattern: CMD, a nonempty [0-9A-Z]
token, the text Received, and then one arbitrary non-newline character, with
arbitrary trailing content.  The pattern character after Received is the
regex wildcard, not a literal dot, and re.match does not anchor the end, so
the two rejection cases named by the claim are in fact accepted. -/
theorem c2_theorem (cmd a : String) (ls : List String) :
    sendcmd cmd (a :: ls) = Except.error (PErr.protocol cmd a) ↔ ¬ AckShape a := by
  constructor
  · intro h hshape
    have hack : cmdackre a = true := (cmdackre_iff a).mpr hshape
    rw [sendcmd, if_pos hack] at h
    exact collectReply_ne_protocol ls cmd a h
  · intro h
    have hack : cmdackre a = false := by
      cases hc : cmdackre a
      · rfl
      · exact absurd ((cmdackre_iff a).mp hc) h
    rw [sendcmd, if_neg (by rw [hack]; exact Bool.false_ne_true)]

/-- Claim C2, witness: a garbage first line is indeed rejected, and by the
theorem it therefore has no accepted shape. -/
theorem c2_witness : ¬ AckShape ("bwah\n") :=
  (c2_theorem ("~M119\r\n") ("bwah\n") ["ok\n"]).mp (by rfl)

/-- Claim C2, counterexample to the claim as stated: an acknowledgement line
with an X in place of the final dot and arbitrary extra content after the
pattern is accepted, the command completing normally, although it does not
match the exact specification pattern. -/
theorem c2_counterexample :
    specAckExact ("CMD M119 ReceivedX trailing junk\n") = false ∧
    sendcmd ("~M119\r\n") ["CMD M119 ReceivedX trailing junk\n", "ok\n"] =
      Except.ok [] :=
  ⟨by decide, by rfl⟩

lemma chunksGo_nil (fuel : Nat) : chunksGo fuel [] = [] := by
  cases fuel <;> rfl

lemma chunksGo_flatten :
    ∀ (fuel : Nat) (B : List Nat), B.length ≤ fuel →
      (chunksGo fuel B).flatten = B := by
  intro fuel
  induction fuel with
  | zero =>
      intro B h
      have hB : B = [] := List.eq_nil_of_length_eq_zero (Nat.le_zero.mp h)
      subst hB; rfl
  | succ fuel ih =>
      intro B h
      cases B with
      | nil => rfl
      | cons b bs =>
          simp only [chunksGo, List.flatten_cons]
          rw [ih ((b :: bs).drop 1024)
            (by rw [List.length_drop]; simp only [List.length_cons] at h ⊢; omega)]
          exact List.take_append_drop 1024 (b :: bs)

lemma chunks1024_flatten (B : List Nat) : (chunks1024 B).flatten = B :=
  chunksGo_flatten B.length B (Nat.le_refl _)

lemma chunksGo_length_bounds :
    ∀ (fuel : Nat) (B : List Nat), B.length ≤ fuel → B ≠ [] →
      B.length ≤ 1024 * (chunksGo fuel B).length ∧
        1024 * (chunksGo fuel B).length < B.length + 1024 := by
  intro fuel
  induction fuel with
  | zero =>
      intro B h hne
      exact absurd (List.eq_nil_of_length_eq_zero (Nat.le_zero.mp h)) hne
  | succ fuel ih =>
      intro B h hne
      cases B with
      | nil => exact absurd rfl hne
      | cons b bs =>
          simp only [chunksGo]
          by_cases hlen : (b :: bs).length ≤ 1024
          · have hdrop : (b :: bs).drop 1024 = [] := by
              apply List.eq_nil_of_length_eq_zero
              rw [List.length_drop]; omega
            rw [hdrop, chunksGo_nil]
            simp only [List.length_cons, List.length_nil]
            simp only [List.length_cons] at hlen
            omega
          · have hdne : (b :: bs).drop 1024 ≠ [] := by
              intro hd
              have := congrArg List.length hd
              rw [List.length_drop] at this
              simp only [List.length_cons, List.length_nil] at this hlen
              omega
            have hdl : ((b :: bs).drop 1024).length ≤ fuel := by
              rw [List.length_drop]; simp only [List.length_cons] at h ⊢; omega
            have hrec := ih ((b :: bs).drop 1024) hdl hdne
            rw [List.length_drop] at hrec
            simp only [List.length_cons] at hrec hlen ⊢
            omega

lemma uploadLoop_spec :
    ∀ (flen : Nat) (cs : List (List Nat)) (b s : Nat), flen ≠ 0 →
      uploadLoop flen cs b s =
        ⟨(cs.map (fun c => [Ev.data c, Ev.flush])).flatten,
          s + 1024 * cs.length, Except.ok ()⟩ := by
  intro flen cs
  induction cs with
  | nil =>
      intro b s h
      rw [uploadLoop, if_neg (by simp [h])]
      simp
  | cons c cs ih =>
      intro b s h
      rw [uploadLoop, if_neg (by simp [h])]
      simp only [ih (b + 1) (s + 1024) h, List.map_cons, List.flatten_cons,
        List.length_cons, List.cons_append, List.nil_append, LoopOut.mk.injEq]
      refine ⟨trivial, by ring, trivial⟩

lemma dataBytes_append :
    ∀ a b : List Ev, dataBytes (a ++ b) = dataBytes a ++ dataBytes b := by
  intro a b
  induction a with
  | nil => rfl
  | cons e a ih => cases e <;> simp [dataBytes, ih]

lemma dataBytes_chunkEvs :
    ∀ cs : List (List Nat),
      dataBytes ((cs.map (fun c => [Ev.data c, Ev.flush])).flatten) = cs.flatten := by
  intro cs
  induction cs with
  | nil => rfl
  | cons c cs ih =>
      simp only [List.map_cons, List.flatten_cons]
      rw [dataBytes_append]
      simp [dataBytes, ih]

/-- Claim C8 (corrected).  The upload loop performs no validation of the
byte source against the declared total length: for any nonzero declared
length and any chunk sequence whatsoever, it completes without error and
writes every byte the source yields, whether that is fewer or more than the
declared length.  In the send command the declared length is measured from
the source itself by seeking, so the two cannot disagree there; no
ValidationError path exists. -/
theorem c8_theorem (flen : Nat) (cs : List (List Nat)) (b s : Nat)
    (h : flen ≠ 0) :
    (uploadLoop flen cs b s).res = Except.ok () ∧
    dataBytes (uploadLoop flen cs b s).evs = cs.flatten := by
  rw [uploadLoop_spec flen cs b s h]
  exact ⟨rfl, dataBytes_chunkEvs cs⟩

/-- Claim C8, witness: loop run with declared length 2 over a 1-byte
source. -/
theorem c8_witness :
    (uploadLoop 2 (chunks1024 [7]) 0 0).res = Except.ok () ∧
    dataBytes (uploadLoop 2 (chunks1024 [7]) 0 0).evs = (chunks1024 [7]).flatten :=
  c8_theorem 2 (chunks1024 [7]) 0 0 (by decide)

/-- Claim C8, counterexample to the claim as stated: with declared total
length 2 a source exhausted after a single byte completes without any
ValidationError, and with declared total length 1 a source producing three
bytes also completes without error, streaming all three. -/
theorem c8_counterexample :
    (uploadLoop 2 (chunks1024 [7]) 0 0).res = Except.ok () ∧
    dataBytes (uploadLoop 2 (chunks1024 [7]) 0 0).evs = [7] ∧
    (uploadLoop 1 (chunks1024 [7, 8, 9]) 0 0).res = Except.ok () ∧
    dataBytes (uploadLoop 1 (chunks1024 [7, 8, 9]) 0 0).evs = [7, 8, 9] :=
  ⟨rfl, rfl, rfl, rfl⟩

/-- Claim C9 (corrected).  After the loop the cumulative counter equals
1024 times the number of chunks, because the source adds the full BLOCKSIZE
for every chunk including a final short one; it therefore equals the number
of bytes actually written only when the length is a multiple of 1024, and in
general lies in the half-open interval from the source length to the source
length plus 1024. -/
theorem c9_theorem (B : List Nat) (h : B ≠ []) :
    (uploadLoop B.length (chunks1024 B) 0 0).res = Except.ok () ∧
    (uploadLoop B.length (chunks1024 B) 0 0).finalSent =
      1024 * (chunks1024 B).length ∧
    dataBytes (uploadLoop B.length (chunks1024 B) 0 0).evs = B ∧
    B.length ≤ (uploadLoop B.length (chunks1024 B) 0 0).finalSent ∧
    (uploadLoop B.length (chunks1024 B) 0 0).finalSent < B.length + 1024 := by
  have hlen : B.length ≠ 0 := by
    intro h0; exact h (List.eq_nil_of_length_eq_zero h0)
  rw [uploadLoop_spec B.length (chunks1024 B) 0 0 hlen]
  have hb := chunksGo_length_bounds B.length B (Nat.le_refl _) h
  refine ⟨rfl, by simp, ?_, ?_, ?_⟩
  · rw [dataBytes_chunkEvs, chunks1024_flatten]
  · simpa [chunks1024] using hb.1
  · simpa [chunks1024] using hb.2

/-- Claim C9, witness: a 1-byte source. -/
theorem c9_witness :
    (uploadLoop ([7] : List Nat).length (chunks1024 [7]) 0 0).res = Except.ok () ∧
    (uploadLoop ([7] : List Nat).length (chunks1024 [7]) 0 0).finalSent =
      1024 * (chunks1024 [7]).length ∧
    dataBytes (uploadLoop ([7] : List Nat).length (chunks1024 [7]) 0 0).evs = [7] ∧
    ([7] : List Nat).length ≤
      (uploadLoop ([7] : List Nat).length (chunks1024 [7]) 0 0).finalSent ∧
    (uploadLoop ([7] : List Nat).length (chunks1024 [7]) 0 0).finalSent <
      ([7] : List Nat).length + 1024 :=
  c9_theorem [7] (by decide)

/-- Claim C9, counterexample to the claim as stated: a 1-byte source forms
one final short chunk; afterwards the counter reads 1024 although exactly
one data byte was written, so the counter does not equal the bytes actually
written. -/
theorem c9_counterexample :
    (uploadLoop 1 (chunks1024 [7]) 0 0).finalSent = 1024 ∧
    (dataBytes (uploadLoop 1 (chunks1024 [7]) 0 0).evs).length = 1 ∧
    (1024 : Nat) ≠ 1 :=
  ⟨rfl, rfl, by decide⟩

lemma send_ok_trace (ln : String) (B : List Nat) (r1 r2 : List String)
    (hname : (basenamePy ln).length ≤ 36)
    (hopen : ∃ rs, sendcmd (m28cmd B.length (basenamePy ln)) r1 = Except.ok rs)
    (hne : B ≠ []) :
    (send ln B r1 r2).1 =
      Ev.cmd (m28cmd B.length (basenamePy ln)) :: Ev.flush ::
        (((chunks1024 B).map (fun c => [Ev.data c, Ev.flush])).flatten ++
          m29close) := by
  obtain ⟨rs, hrs⟩ := hopen
  have hlen : B.length ≠ 0 := by
    intro h0; exact hne (List.eq_nil_of_length_eq_zero h0)
  rw [send]
  simp only [if_pos hname, hrs]
  rw [uploadLoop_spec B.length (chunks1024 B) 0 0 hlen]
  rcases hclose : sendcmd ("~M29\r\n") r2 with e | rs2 <;> simp [hclose]

/-- Claim C3 (confirmed).  Whenever an upload reaches the close step (valid
name, acknowledged open exchange, nonempty source), the whole trace ends
with the fixed closing sequence flush, 100 ms sleep, flush, the ~M29
command write, flush — and every data-chunk write lies strictly before that
sequence.  The close command write is therefore separated from the final
data chunk write by a flush and the 100 ms delay. -/
theorem c3_theorem (ln : String) (B : List Nat) (r1 r2 : List String)
    (hname : (basenamePy ln).length ≤ 36)
    (hopen : ∃ rs, sendcmd (m28cmd B.length (basenamePy ln)) r1 = Except.ok rs)
    (hne : B ≠ []) :
    ∃ pre, (send ln B r1 r2).1 = pre ++ m29close ∧
      ∀ bs, Ev.data bs ∈ (send ln B r1 r2).1 → Ev.data bs ∈ pre := by
  rw [send_ok_trace ln B r1 r2 hname hopen hne]
  refine ⟨Ev.cmd (m28cmd B.length (basenamePy ln)) :: Ev.flush ::
    ((chunks1024 B).map (fun c => [Ev.data c, Ev.flush])).flatten, by simp, ?_⟩
  intro bs hbs
  simp only [List.cons_append, List.mem_cons] at hbs ⊢
  rcases hbs with h1 | h2 | h3
  · exact Or.inl h1
  · exact Or.inr (Or.inl h2)
  · rcases List.mem_append.mp h3 with h4 | h5
    · exact Or.inr (Or.inr h4)
    · exact absurd h5 (by simp [m29close])

/-- Claim C3, witness: a concrete 1-byte upload with acknowledged
exchanges. -/
theorem c3_witness :
    ∃ pre,
      (send ("a.gcode") [5] ["CMD M28 Received.\n", "ok\n"]
        ["CMD M29 Received.\n", "ok\n"]).1 = pre ++ m29close ∧
      ∀ bs, Ev.data bs ∈
          (send ("a.gcode") [5] ["CMD M28 Received.\n", "ok\n"]
            ["CMD M29 Received.\n", "ok\n"]).1 → Ev.data bs ∈ pre :=
  c3_theorem ("a.gcode") [5] ["CMD M28 Received.\n", "ok\n"]
    ["CMD M29 Received.\n", "ok\n"] (by decide) ⟨[], by rfl⟩ (by decide)

/-- Claim C4 (confirmed).  For a nonempty byte source, once the open
exchange is acknowledged the data bytes written between upload-open and
upload-close are exactly the source bytes, unaltered and unpadded, so their
total equals the source length — including when the length is not a
multiple of the 1024-byte chunk size. -/
theorem c4_theorem (ln : String) (B : List Nat) (r1 r2 : List String)
    (hname : (basenamePy ln).length ≤ 36)
    (hopen : ∃ rs, sendcmd (m28cmd B.length (basenamePy ln)) r1 = Except.ok rs)
    (hne : B ≠ []) :
    dataBytes (send ln B r1 r2).1 = B ∧
    (dataBytes (send ln B r1 r2).1).length = B.length := by
  have h1 : dataBytes (send ln B r1 r2).1 = B := by
    rw [send_ok_trace ln B r1 r2 hname hopen hne]
    simp [dataBytes, dataBytes_append, dataBytes_chunkEvs, chunks1024_flatten,
      m29close]
  exact ⟨h1, by rw [h1]⟩

set_option maxRecDepth 4000 in
/-- Claim C4, witness: a 1025-byte source, a full chunk plus a final 1-byte
chunk. -/
theorem c4_witness :
    dataBytes (send ("a.gcode") (List.replicate 1025 9)
      ["CMD M28 Received.\n", "ok\n"] ["CMD M29 Received.\n", "ok\n"]).1 =
      List.replicate 1025 9 ∧
    (dataBytes (send ("a.gcode") (List.replicate 1025 9)
      ["CMD M28 Received.\n", "ok\n"] ["CMD M29 Received.\n", "ok\n"]).1).length =
      (List.replicate 1025 9 : List Nat).length :=
  c4_theorem ("a.gcode") (List.replicate 1025 9)
    ["CMD M28 Received.\n", "ok\n"] ["CMD M29 Received.\n", "ok\n"]
    (by decide) ⟨[], by rfl⟩ (List.length_pos.mp (by simp))

/-- Claim C7 (confirmed).  A basename longer than 36 characters fails the
assertion with no event emitted — no network write happens — while a
basename within the limit passes validation and the trace begins with the
upload-open command write. -/
theorem c7_theorem (ln : String) (B : List Nat) (r1 r2 : List String) :
    (37 ≤ (basenamePy ln).length →
      send ln B r1 r2 = ([], Except.error PErr.validation)) ∧
    ((basenamePy ln).length ≤ 36 →
      ∃ rest, (send ln B r1 r2).1 =
        Ev.cmd (m28cmd B.length (basenamePy ln)) :: Ev.flush :: rest) := by
  constructor
  · intro h37
    rw [send, if_neg (by omega)]
  · intro h36
    rw [send]
    simp only [if_pos h36]
    rcases h1 : sendcmd (m28cmd B.length (basenamePy ln)) r1 with e | rs
    · exact ⟨[], rfl⟩
    · rcases h2 : (uploadLoop B.length (chunks1024 B) 0 0).res with e2 | u
      · refine ⟨(uploadLoop B.length (chunks1024 B) 0 0).evs, ?_⟩
        simp [h2]
      · rcases h3 : sendcmd ("~M29\r\n") r2 with e3 | rs2 <;>
          refine ⟨(uploadLoop B.length (chunks1024 B) 0 0).evs ++ m29close, ?_⟩ <;>
          simp [h2, h3]

/-- Claim C7, witness: a 36-character basename proceeds to the open command,
a 37-character basename fails with no event. -/
theorem c7_witness :
    send ("d/" ++ "aaaaaaaaaaaaaaaaaaaaaaaaaaaaaaaaaaaaa") [1] [] [] =
      ([], Except.error PErr.validation) ∧
    ∃ rest, (send ("aaaaaaaaaaaaaaaaaaaaaaaaaaaaaaaa.gco") [1] [] []).1 =
      Ev.cmd (m28cmd 1 (basenamePy ("aaaaaaaaaaaaaaaaaaaaaaaaaaaaaaaa.gco"))) ::
        Ev.flush :: rest :=
  ⟨(c7_theorem ("d/" ++ "aaaaaaaaaaaaaaaaaaaaaaaaaaaaaaaaaaaaa") [1] [] []).1
      (by decide),
    (c7_theorem ("aaaaaaaaaaaaaaaaaaaaaaaaaaaaaaaa.gco") [1] [] []).2
      (by decide)⟩

/-- Claim C10 (confirmed).  Uploading an empty byte source passes name
validation and the open exchange, then fails with ZeroDivisionError in the
first progress computation, before any data byte is written: the trace holds
only the open command write and its flush, and contains no data event. -/
theorem c10_theorem (ln : String) (r1 r2 : List String)
    (hname : (basenamePy ln).length ≤ 36)
    (hopen : ∃ rs, sendcmd (m28cmd 0 (basenamePy ln)) r1 = Except.ok rs) :
    send ln [] r1 r2 =
      ([Ev.cmd (m28cmd 0 (basenamePy ln)), Ev.flush],
        Except.error PErr.zeroDivision) ∧
    dataBytes (send ln [] r1 r2).1 = [] := by
  obtain ⟨rs, hrs⟩ := hopen
  have h1 : send ln [] r1 r2 =
      ([Ev.cmd (m28cmd 0 (basenamePy ln)), Ev.flush],
        Except.error PErr.zeroDivision) := by
    rw [send]
    simp only [if_pos hname, List.length_nil, hrs]
    rfl
  exact ⟨h1, by rw [h1]; rfl⟩

/-- Claim C10, witness: a concrete empty upload. -/
theorem c10_witness :
    send ("part.g") [] ["CMD M28 Received.\n", "ok\n"] [] =
      ([Ev.cmd (m28cmd 0 (basenamePy ("part.g"))), Ev.flush],
        Except.error PErr.zeroDivision) ∧
    dataBytes (send ("part.g") [] ["CMD M28 Received.\n", "ok\n"] []).1 = [] :=
  c10_theorem ("part.g") ["CMD M28 Received.\n", "ok\n"] [] (by decide)
    ⟨[], by rfl⟩

lemma be32_roundtrip (n : Nat) (h : n < 4294967296) :
    be32dec (be32enc n) = n := by
  simp only [be32enc, be32dec]
  omega

/-- Claim C6 (confirmed).  A block whose 4-byte magic differs from the
expected tag fails with the mismatch error carrying both tags, and the
payload is never read: the result is the same error whatever bytes follow
the 8-byte header, including when nothing at all follows it. -/
theorem c6_theorem (expected : List Nat) (b0 b1 b2 b3 b4 b5 b6 b7 : Nat)
    (payload : List Nat) (h : [b0, b1, b2, b3] ≠ expected) :
    readBlock expected (b0 :: b1 :: b2 :: b3 :: b4 :: b5 :: b6 :: b7 :: payload) =
      Except.error (PErr.magicMismatch expected [b0, b1, b2, b3]) ∧
    readBlock expected [b0, b1, b2, b3, b4, b5, b6, b7] =
      Except.error (PErr.magicMismatch expected [b0, b1, b2, b3]) := by
  constructor <;> simp [readBlock, parseHdr, h]

/-- Claim C6, witness: a wrong-magic block under the file-list header tag,
with and without payload bytes present. -/
theorem c6_witness :
    readBlock listMagic [1, 2, 3, 4, 0, 0, 0, 5, 9, 9, 9, 9, 9] =
      Except.error (PErr.magicMismatch listMagic [1, 2, 3, 4]) ∧
    readBlock listMagic [1, 2, 3, 4, 0, 0, 0, 5] =
      Except.error (PErr.magicMismatch listMagic [1, 2, 3, 4]) :=
  c6_theorem listMagic 1 2 3 4 0 0 0 5 [9, 9, 9, 9, 9] (by decide)

lemma readBlock_entry (nm rest : List Nat) (hlen : nm.length < 4294967296) :
    readBlock entryMagic (encEntry nm ++ rest) = Except.ok (nm, rest) := by
  have hdec := be32_roundtrip nm.length hlen
  simp only [be32enc, be32dec] at hdec
  simp only [encEntry, entryMagic, be32enc, List.append_assoc, List.cons_append,
    List.nil_append, readBlock, parseHdr, if_pos, be32dec, hdec,
    List.take_left, List.drop_left]

lemma parseHdr_list (n : Nat) (rest : List Nat) (hn : n < 4294967296) :
    parseHdr listMagic (listMagic ++ be32enc n ++ rest) = Except.ok (n, rest) := by
  have hdec := be32_roundtrip n hn
  simp only [be32enc, be32dec] at hdec
  simp only [listMagic, be32enc, List.append_assoc, List.cons_append,
    List.nil_append, parseHdr, if_pos, be32dec, hdec]

lemma readEntries_encode :
    ∀ (names : List (List Nat)) (m : Nat) (cont : List Nat),
      (∀ nm ∈ names, nm.all (fun b => b < 128) = true ∧
        nm.length < 4294967296) →
      readEntries (names.length + m) (encodeEntries names ++ cont) =
        match readEntries m cont with
        | Except.ok r => Except.ok (names ++ r)
        | Except.error e => Except.error e := by
  intro names
  induction names with
  | nil =>
      intro m cont _
      simp only [List.length_nil, Nat.zero_add, encodeEntries, List.map_nil,
        List.flatten_nil, List.nil_append]
      rcases hx : readEntries m cont with e | r <;> rfl
  | cons nm names ih =>
      intro m cont h
      have hnm := h nm (List.mem_cons_self nm names)
      have hrest := fun x hx => h x (List.mem_cons_of_mem nm hx)
      have hcount : (nm :: names).length + m = (names.length + m) + 1 := by
        simp only [List.length_cons]; omega
      rw [hcount]
      have hstream : encodeEntries (nm :: names) ++ cont =
          encEntry nm ++ (encodeEntries names ++ cont) := by
        simp [encodeEntries, List.flatten_cons, List.append_assoc]
      rw [hstream]
      rw [readEntries]
      rw [readBlock_entry nm (encodeEntries names ++ cont) hnm.2]
      simp only [hnm.1, if_pos]
      rw [ih m cont hrest]
      rcases hx : readEntries m cont with e | r <;> simp [hx]

/-- Claim C5 (corrected).  For a declared count equal to the number of
complete entry blocks present, parsing yields exactly the declared number of
filenames; and a stream that ends at an entry-block boundary with fewer
complete entries than declared fails with the short-header struct error and
returns no list.  The failure guarantee does not extend to a stream that
closes inside the payload of the final entry: the payload read returns the bytes
available without a length check, as the counterexample shows. -/
theorem c5_theorem (names : List (List Nat))
    (h : ∀ nm ∈ names, nm.all (fun b => b < 128) = true ∧
      nm.length < 4294967296)
    (hn : names.length < 4294967296) :
    listfiles (encodeFileList names) = Except.ok names ∧
    ∀ k, k < names.length →
      listfiles (listMagic ++ be32enc names.length ++
        encodeEntries (names.take k)) = Except.error PErr.structShort := by
  constructor
  · rw [encodeFileList]
    simp only [listfiles]
    rw [parseHdr_list names.length (encodeEntries names) hn]
    show readEntries names.length (encodeEntries names) = Except.ok names
    have hrw := readEntries_encode names 0 [] h
    simp only [Nat.add_zero, List.append_nil] at hrw
    rw [hrw]
    simp [readEntries]
  · intro k hk
    simp only [listfiles]
    rw [parseHdr_list names.length (encodeEntries (names.take k)) hn]
    show readEntries names.length (encodeEntries (names.take k)) =
      Except.error PErr.structShort
    have hlen : (names.take k).length = k := by
      rw [List.length_take]; omega
    have hsum : names.length = (names.take k).length + (names.length - k) := by
      rw [hlen]; omega
    rw [hsum,
      show encodeEntries (names.take k) =
        encodeEntries (names.take k) ++ [] from (List.append_nil _).symm]
    rw [readEntries_encode (names.take k) (names.length - k) []
      (fun x hx => h x (List.take_subset k names hx))]
    obtain ⟨j, hj⟩ : ∃ j, names.length - k = j + 1 :=
      ⟨names.length - k - 1, by omega⟩
    rw [hj]
    simp [readEntries, readBlock, parseHdr]

/-- Claim C5, witness: a one-entry list parses back to itself, and the same
header with the entry block missing fails. -/
theorem c5_witness :
    listfiles (encodeFileList [[104]]) = Except.ok [[104]] ∧
    listfiles (listMagic ++ be32enc ([[104]] : List (List Nat)).length ++
      encodeEntries (([[104]] : List (List Nat)).take 0)) =
      Except.error PErr.structShort :=
  ⟨(c5_theorem [[104]] (by decide) (by decide)).1,
    (c5_theorem [[104]] (by decide) (by decide)).2 0 (by decide)⟩

/-- Claim C5, counterexample to the claim as stated: a stream declaring one
entry whose header announces a 5-byte filename but which closes after only
3 payload bytes — so it contains fewer than the declared number of complete
entries — is accepted without error, returning the truncated filename
instead of failing. -/
theorem c5_counterexample :
    listfiles (listMagic ++ be32enc 1 ++ entryMagic ++ be32enc 5 ++
      [97, 98, 99]) = Except.ok [[97, 98, 99]] ∧
    ([97, 98, 99] : List Nat).length < 5 :=
  ⟨by rfl, by decide⟩
